import Mathlib

/-!
# Verification of the kompreser image-compression library

Shallow embedding of the algorithmic core of the `@xbibzlibrary/kompreser`
JavaScript library, together with proofs and refutations of the claims of its
natural-language specification.

Conventions of the embedding:
* JavaScript typed arrays (`Uint8Array`) are modelled as `List ℕ`; reads out of
  bounds yield the JS `undefined`-coerced default recorded at each site, and
  writes out of bounds are dropped (`List.set` is a no-op out of range, exactly
  like a typed-array store).
* JS `Map` objects are modelled as association lists in insertion order
  (head = oldest), matching the iteration order JS guarantees.
* Exact rational arithmetic (`ℚ`) models JS number arithmetic where the
  source only adds, multiplies and compares; `ℝ` models the transcendental
  parts (`Math.cos`, `Math.sqrt`, `Math.log2`).
* Functions whose JS bodies sit inside a `try`/`catch` or may `throw` are
  modelled in `Except`; a function with no reachable throw site is a total
  function into the `ok` constructor.
-/

/-! ## ErrorHandler (src `ErrorHandler.js`)

Error codes of the `KompreserError` hierarchy and the retry policy of
`ErrorHandler`.  `CompressionError` carries code `'COMPRESSION_ERROR'` and is
the spec's `EncodeFailure`. -/

/-- The `code` strings of the `KompreserError` subclasses in `ErrorHandler.js`. -/
inductive ErrorCode where
  | validation
  | format
  | compression
  | memory
  | worker
  | timeout
  | unsupported
  | metadata
  | performance
  deriving DecidableEq, Repr

namespace ErrorHandler

/-- `ErrorHandler.isRetryableError`: membership of the error's code in the
array `['WORKER_ERROR', 'TIMEOUT_ERROR', 'COMPRESSION_ERROR']`. -/
def isRetryableError (code : ErrorCode) : Bool :=
  [ErrorCode.worker, ErrorCode.timeout, ErrorCode.compression].contains code

/-- `ErrorHandler.shouldRetry`, decision part.  The JS reads
`errorCount = this.errorCounts.get(error.code) || 0` and returns an object
whose `shouldRetry` field is true iff `errorCount <= maxRetries` and the error
is retryable; the backoff sleep is I/O and does not affect the decision.
`errorCounts` models the `Map` with its `|| 0` default. -/
def shouldRetry (errorCounts : ErrorCode → Nat) (maxRetries : Nat)
    (code : ErrorCode) : Bool :=
  decide (errorCounts code ≤ maxRetries) && isRetryableError code

end ErrorHandler

/-! ## LRUCache (src `CompressionEngine.js`, class `LRUCache`)

The cache maps keys to compressed-result values; a value's byte size is read
as `value.data?.length || value.size || 0`.  Entries are kept in a JS `Map`,
whose iteration order is insertion order; `get` refreshes recency by
delete-and-reinsert, and `set` evicts from the front (least recently used). -/

/-- A cached value: the fields of it that `LRUCache` reads.  `dataLen` is
`value.data?.length` (absent when there is no `data`), `sizeField` is
`value.size`. -/
structure CacheValue where
  dataLen : Option Nat
  sizeField : Option Nat
  deriving DecidableEq, Repr

/-- `value.data?.length || value.size || 0`, with JS falsiness (`0` and
`undefined` both fall through to the next alternative). -/
def CacheValue.entrySize (v : CacheValue) : Nat :=
  let a := v.dataLen.getD 0
  if a ≠ 0 then a else v.sizeField.getD 0

/-- State of `LRUCache`: `entries` is the backing `Map` as an association
list in insertion order (head = least recently used). -/
structure LRUCache where
  maxSize : Nat
  entries : List (Nat × CacheValue)
  totalSize : Nat
  deriving DecidableEq, Repr

namespace LRUCache

/-- `LRUCache.get` (access counters omitted: they do not affect entries or
sizes).  On a hit the entry is deleted and re-inserted at the
most-recently-used end. -/
def get (c : LRUCache) (key : Nat) : Option CacheValue × LRUCache :=
  match c.entries.find? (fun e => e.1 == key) with
  | some e =>
      (some e.2,
        { c with entries := c.entries.eraseP (fun e => e.1 == key) ++ [(key, e.2)] })
  | none => (none, c)

/-- The `while (this.totalSize + size > this.maxSize && this.cache.size > 0)`
eviction loop of `LRUCache.set`: drop entries from the front, subtracting
their sizes from the running total. -/
def evictLoop (maxSize size : Nat) :
    List (Nat × CacheValue) → Nat → List (Nat × CacheValue) × Nat
  | [], total => ([], total)
  | e :: rest, total =>
      if maxSize < total + size then
        evictLoop maxSize size rest (total - e.2.entrySize)
      else (e :: rest, total)

/-- `LRUCache.set`: remove an existing entry for the key, evict
least-recently-used entries while the new entry does not fit, then store the
entry only if it fits in the whole budget. -/
def set (c : LRUCache) (key : Nat) (v : CacheValue) : LRUCache :=
  let size := v.entrySize
  let c₁ :=
    match c.entries.find? (fun e => e.1 == key) with
    | some old =>
        { c with entries := c.entries.eraseP (fun e => e.1 == key),
                 totalSize := c.totalSize - old.2.entrySize }
    | none => c
  let ev := evictLoop c.maxSize size c₁.entries c₁.totalSize
  if size ≤ c.maxSize then
    { c₁ with entries := ev.1 ++ [(key, v)], totalSize := ev.2 + size }
  else
    { c₁ with entries := ev.1, totalSize := ev.2 }

/-- `LRUCache.clear`. -/
def clear (c : LRUCache) : LRUCache :=
  { c with entries := [], totalSize := 0 }

/-- The `totalSize` counter agrees with the aggregate byte size of the stored
entries. -/
def wf (c : LRUCache) : Prop :=
  c.totalSize = (c.entries.map (fun e => e.2.entrySize)).sum

instance (c : LRUCache) : Decidable c.wf := by unfold wf; infer_instance

end LRUCache

/-! ## Theorems for the retry policy (claim C6) -/

/-- C6 counterexample: the spec claims a codec-internal `EncodeFailure`
(`CompressionError`, code `COMPRESSION_ERROR`) is never classified as
retryable.  On the code the opposite holds at a concrete state: with one
recorded compression error and `maxRetries = 3` (the default), the policy
classifies the error retryable and decides to retry. -/
theorem compressionError_is_retried :
    ErrorHandler.isRetryableError ErrorCode.compression = true ∧
    ErrorHandler.shouldRetry (fun _ => 1) 3 ErrorCode.compression = true := by
  constructor <;> rfl

/-- C6 amended: `COMPRESSION_ERROR` is in `isRetryableError`'s retryable list
(together with `WORKER_ERROR` and `TIMEOUT_ERROR`), and `shouldRetry` decides
to retry a compression error exactly while its recorded error count is at most
`maxRetries`. -/
theorem shouldRetry_compression_iff_within_budget
    (errorCounts : ErrorCode → Nat) (maxRetries : Nat) :
    ErrorHandler.isRetryableError ErrorCode.compression = true ∧
    (ErrorHandler.shouldRetry errorCounts maxRetries ErrorCode.compression = true ↔
      errorCounts ErrorCode.compression ≤ maxRetries) := by
  refine ⟨rfl, ?_⟩
  simp [ErrorHandler.shouldRetry, ErrorHandler.isRetryableError]

/-! ## Lemmas about the LRU cache, and claim C7  -/

/-- If `find?` locates an entry, the aggregate size of a list splits into that
entry's size plus the aggregate of the list with the first occurrence erased. -/
theorem sum_map_eraseP_of_find (f : Nat × CacheValue → Nat)
    (p : Nat × CacheValue → Bool) :
    ∀ (l : List (Nat × CacheValue)) (old : Nat × CacheValue),
      l.find? p = some old →
      ((l.map f).sum = f old + (((l.eraseP p).map f).sum)) ∧ f old ≤ (l.map f).sum := by
  intro l
  induction l with
  | nil => intro old h; simp at h
  | cons e rest ih =>
      intro old h
      by_cases hp : p e
      · rw [List.find?_cons_of_pos _ hp] at h
        cases h
        rw [List.eraseP_cons_of_pos hp]
        simp
      · rw [List.find?_cons_of_neg _ hp] at h
        obtain ⟨heq, hle⟩ := ih old h
        rw [List.eraseP_cons_of_neg hp]
        simp only [List.map_cons, List.sum_cons]
        omega

/-- The eviction loop returns a suffix of its input list. -/
theorem evictLoop_suffix (m s : Nat) :
    ∀ (l : List (Nat × CacheValue)) (t : Nat),
      (LRUCache.evictLoop m s l t).1 <:+ l := by
  intro l
  induction l with
  | nil => intro t; simp [LRUCache.evictLoop]
  | cons e rest ih =>
      intro t
      unfold LRUCache.evictLoop
      by_cases h : m < t + s
      · simpa [h] using (ih (t - e.2.entrySize)).trans (List.suffix_cons e rest)
      · simp [h]

/-- Under the size-accounting invariant, the eviction loop keeps the
invariant and stops either with the new entry fitting or with the cache
emptied. -/
theorem evictLoop_wf (m s : Nat) :
    ∀ (l : List (Nat × CacheValue)) (t : Nat),
      t = (l.map (fun e => e.2.entrySize)).sum →
      (LRUCache.evictLoop m s l t).2 =
        (((LRUCache.evictLoop m s l t).1.map (fun e => e.2.entrySize)).sum) ∧
      ((LRUCache.evictLoop m s l t).2 + s ≤ m ∨ (LRUCache.evictLoop m s l t).1 = []) := by
  intro l
  induction l with
  | nil =>
      intro t ht
      simp [LRUCache.evictLoop, ht]
  | cons e rest ih =>
      intro t ht
      unfold LRUCache.evictLoop
      by_cases h : m < t + s
      · simp only [if_pos h]
        apply ih
        simp only [List.map_cons, List.sum_cons] at ht
        omega
      · simp only [if_neg h]
        exact ⟨ht, Or.inl (by omega)⟩

/-- C7: the result cache's byte-budget invariant.  From any state whose
`totalSize` counter agrees with the aggregate stored size:
`get` moves entries without changing the aggregate (so a within-budget state
stays within budget); `set` restores the invariant and always lands within
budget, evicts least-recently-used entries first (the survivors of the prior
recency list form a suffix of it, with the new entry appended at the
most-recent end exactly when it fits), and an entry larger than the whole
budget is not stored; `clear` empties the aggregate. -/
theorem lruCache_budget_invariant (c : LRUCache) (key : Nat) (v : CacheValue)
    (hwf : c.wf) :
    ((c.get key).2.totalSize = c.totalSize ∧ (c.get key).2.wf ∧
      (c.totalSize ≤ c.maxSize → (c.get key).2.totalSize ≤ c.maxSize)) ∧
    ((c.set key v).wf ∧ (c.set key v).totalSize ≤ c.maxSize ∧
      (c.maxSize < v.entrySize → (c.set key v).entries = []) ∧
      ∃ keep, keep <:+ c.entries.eraseP (fun e => e.1 == key) ∧
        (c.set key v).entries =
          keep ++ (if v.entrySize ≤ c.maxSize then [(key, v)] else [])) ∧
    ((c.clear).totalSize = 0 ∧ (c.clear).wf) := by
  unfold LRUCache.wf at hwf
  refine ⟨?_, ?_, by simp [LRUCache.clear, LRUCache.wf]⟩
  · unfold LRUCache.get
    cases hf : c.entries.find? (fun e => e.1 == key) with
    | none => exact ⟨rfl, hwf, fun h => h⟩
    | some e =>
        obtain ⟨heq, hle⟩ := sum_map_eraseP_of_find (fun e => e.2.entrySize)
          (fun e => e.1 == key) c.entries e hf
        refine ⟨rfl, ?_, fun h => h⟩
        simp only [LRUCache.wf, List.map_append, List.sum_append, List.map_cons,
          List.sum_cons, List.map_nil, List.sum_nil]
        omega
  · cases hf : c.entries.find? (fun e => e.1 == key) with
    | none =>
        have herase : c.entries.eraseP (fun e => e.1 == key) = c.entries :=
          List.eraseP_of_forall_not (by simpa using List.find?_eq_none.mp hf)
        obtain ⟨hev, hstop⟩ :=
          evictLoop_wf c.maxSize v.entrySize c.entries c.totalSize hwf
        have hsuf := evictLoop_suffix c.maxSize v.entrySize c.entries c.totalSize
        simp only [LRUCache.set, hf]
        by_cases hsz : v.entrySize ≤ c.maxSize
        · rw [if_pos hsz]
          refine ⟨?_, ?_, fun h => absurd hsz (by omega),
            ⟨(LRUCache.evictLoop c.maxSize v.entrySize c.entries c.totalSize).1,
              by rw [herase]; exact hsuf, by rw [if_pos hsz]⟩⟩
          · simp only [LRUCache.wf, List.map_append, List.sum_append, List.map_cons,
              List.sum_cons, List.map_nil, List.sum_nil]
            omega
          · rcases hstop with h | h
            · exact h
            · have hzero :
                  (LRUCache.evictLoop c.maxSize v.entrySize c.entries c.totalSize).2 = 0 := by
                rw [hev, h]; simp
              simp only [hzero]
              omega
        · rw [if_neg hsz]
          have hempty :
              (LRUCache.evictLoop c.maxSize v.entrySize c.entries c.totalSize).1 = [] := by
            rcases hstop with h | h
            · omega
            · exact h
          have hzero :
              (LRUCache.evictLoop c.maxSize v.entrySize c.entries c.totalSize).2 = 0 := by
            rw [hev, hempty]; simp
          refine ⟨?_, ?_, fun _ => hempty,
            ⟨(LRUCache.evictLoop c.maxSize v.entrySize c.entries c.totalSize).1,
              by rw [herase]; exact hsuf, by rw [if_neg hsz, List.append_nil]⟩⟩
          · simp only [LRUCache.wf, hev]
          · simp only [hzero]
            omega
    | some old =>
        obtain ⟨heq, hle⟩ := sum_map_eraseP_of_find (fun e => e.2.entrySize)
          (fun e => e.1 == key) c.entries old hf
        have hwf1 : c.totalSize - old.2.entrySize =
            (((c.entries.eraseP (fun e => e.1 == key)).map
              (fun e => e.2.entrySize)).sum) := by
          omega
        obtain ⟨hev, hstop⟩ := evictLoop_wf c.maxSize v.entrySize
          (c.entries.eraseP (fun e => e.1 == key)) (c.totalSize - old.2.entrySize) hwf1
        have hsuf := evictLoop_suffix c.maxSize v.entrySize
          (c.entries.eraseP (fun e => e.1 == key)) (c.totalSize - old.2.entrySize)
        simp only [LRUCache.set, hf]
        by_cases hsz : v.entrySize ≤ c.maxSize
        · rw [if_pos hsz]
          refine ⟨?_, ?_, fun h => absurd hsz (by omega),
            ⟨(LRUCache.evictLoop c.maxSize v.entrySize
                (c.entries.eraseP (fun e => e.1 == key)) (c.totalSize - old.2.entrySize)).1,
              hsuf, by rw [if_pos hsz]⟩⟩
          · simp only [LRUCache.wf, List.map_append, List.sum_append, List.map_cons,
              List.sum_cons, List.map_nil, List.sum_nil]
            omega
          · rcases hstop with h | h
            · exact h
            · have hzero : (LRUCache.evictLoop c.maxSize v.entrySize
                  (c.entries.eraseP (fun e => e.1 == key))
                  (c.totalSize - old.2.entrySize)).2 = 0 := by
                rw [hev, h]; simp
              simp only [hzero]
              omega
        · rw [if_neg hsz]
          have hempty : (LRUCache.evictLoop c.maxSize v.entrySize
              (c.entries.eraseP (fun e => e.1 == key))
              (c.totalSize - old.2.entrySize)).1 = [] := by
            rcases hstop with h | h
            · omega
            · exact h
          have hzero : (LRUCache.evictLoop c.maxSize v.entrySize
              (c.entries.eraseP (fun e => e.1 == key))
              (c.totalSize - old.2.entrySize)).2 = 0 := by
            rw [hev, hempty]; simp
          refine ⟨?_, ?_, fun _ => hempty,
            ⟨(LRUCache.evictLoop c.maxSize v.entrySize
                (c.entries.eraseP (fun e => e.1 == key)) (c.totalSize - old.2.entrySize)).1,
              hsuf, by rw [if_neg hsz, List.append_nil]⟩⟩
          · simp only [LRUCache.wf, hev]
          · simp only [hzero]
            omega

/-- C7 witness: the invariant theorem applied to a concrete in-budget cache
state holding one 4-byte entry, inserting a 3-byte entry under key 2. -/
theorem lruCache_budget_invariant_witness :
    (LRUCache.set ⟨10, [(1, ⟨some 4, none⟩)], 4⟩ 2 ⟨some 3, none⟩).totalSize ≤ 10 :=
  (lruCache_budget_invariant ⟨10, [(1, ⟨some 4, none⟩)], 4⟩ 2 ⟨some 3, none⟩
    (by decide)).2.1.2.1

/-! ## Strategy selection (src `CompressionEngine.js`, `selectStrategy`)

`selectStrategy(options)` reads the caller's options and the engine's
construction-time options (`this.options`, `this.strategies`); it contains no
throw site, touches no mutable state and reads no ambient environment, so it
embeds as a total function of (engine configuration, caller options). -/

/-- The fields of one entry of `this.strategies` (or of the caller-supplied
`compressionStrategy` object, whose fields may be absent). -/
structure StrategyParams where
  quality : Option ℚ
  effort : Option Nat
  progressive : Option Bool
  deriving DecidableEq, Repr

/-- The construction-time engine options `selectStrategy` reads. -/
structure EngineOptions where
  compressionLevel : Option String
  compressionStrategy : Option StrategyParams
  deriving DecidableEq, Repr

/-- Caller options (preferences): the fields `selectStrategy` reads.  `none`
models an absent property. -/
structure CompressOptions where
  compressionLevel : Option String
  quality : Option ℚ
  effort : Option Nat
  progressive : Option Bool
  deriving DecidableEq, Repr

/-- The strategy object returned: `name` plus the merged parameter fields. -/
structure EncodePlan where
  name : String
  quality : Option ℚ
  effort : Option Nat
  progressive : Option Bool
  deriving DecidableEq, Repr

namespace CompressionEngine

/-- JS `a || b` on two possibly-absent strings (the empty string is falsy). -/
def jsOrStr : Option String → Option String → Option String
  | some s, b => if s = "" then b else some s
  | none, b => b

/-- The `this.strategies` table built in the `CompressionEngine` constructor:
`fast`, `balanced`, `maximum`, and `custom` (the latter
`options.compressionStrategy || ` an empty object). -/
def strategies (cfg : EngineOptions) (level : String) : Option StrategyParams :=
  if level = "fast" then some ⟨some (7/10 : ℚ), some 1, some false⟩
  else if level = "balanced" then some ⟨some (4/5 : ℚ), some 4, some true⟩
  else if level = "maximum" then some ⟨some (9/10 : ℚ), some 9, some true⟩
  else if level = "custom" then some (cfg.compressionStrategy.getD ⟨none, none, none⟩)
  else none

/-- The object literal `{ name, ...base, ...options }`: caller fields
override the strategy's fields when present. -/
def mergePlan (name : String) (base : StrategyParams) (o : CompressOptions) :
    EncodePlan :=
  { name := name,
    quality := o.quality <|> base.quality,
    effort := o.effort <|> base.effort,
    progressive := o.progressive <|> base.progressive }

/-- `CompressionEngine.selectStrategy`: look the level up (caller option,
falling back to the engine default); a known level yields that strategy, any
other (or absent) level yields the `custom` strategy.  Both JS paths `return`
an object, so the exception channel of the embedding is never used. -/
def selectStrategy (cfg : EngineOptions) (o : CompressOptions) :
    Except String EncodePlan :=
  .ok (match jsOrStr o.compressionLevel cfg.compressionLevel with
    | some l =>
        match strategies cfg l with
        | some base => mergePlan l base o
        | none => mergePlan "custom" (cfg.compressionStrategy.getD ⟨none, none, none⟩) o
    | none => mergePlan "custom" (cfg.compressionStrategy.getD ⟨none, none, none⟩) o)

theorem jsOrStr_none (b : Option String) : jsOrStr none b = b := rfl

theorem jsOrStr_some (s : String) (b : Option String) :
    jsOrStr (some s) b = if s = "" then b else some s := rfl

theorem jsOrStr_self (x : Option String) : jsOrStr x x = x := by
  cases x with
  | none => rfl
  | some s => by_cases h : s = "" <;> simp [jsOrStr, h]

end CompressionEngine

/-- C8: strategy selection is a total, deterministic, pure function of the
engine configuration and the caller preferences: on every input it returns a
plan (never an error); an absent compression level is replaced by the engine
default (the result is the same as if the caller had passed the default); and
an invalid (unknown, non-empty) level falls back to the `custom` plan instead
of failing. -/
theorem selectStrategy_pure_total (cfg : EngineOptions) (o : CompressOptions) :
    (∃ p, CompressionEngine.selectStrategy cfg o = Except.ok p) ∧
    (o.compressionLevel = none →
      CompressionEngine.selectStrategy cfg o =
        CompressionEngine.selectStrategy cfg
          { o with compressionLevel := cfg.compressionLevel }) ∧
    (∀ lvl, o.compressionLevel = some lvl →
      lvl ∉ (["fast", "balanced", "maximum", "custom"] : List String) → lvl ≠ "" →
      ∃ p, CompressionEngine.selectStrategy cfg o = Except.ok p ∧
        p.name = "custom") := by
  refine ⟨⟨_, rfl⟩, ?_, ?_⟩
  · intro h
    unfold CompressionEngine.selectStrategy
    rw [h, CompressionEngine.jsOrStr_none]
    have : CompressionEngine.jsOrStr
        ({ o with compressionLevel := cfg.compressionLevel } :
          CompressOptions).compressionLevel cfg.compressionLevel =
        cfg.compressionLevel := CompressionEngine.jsOrStr_self _
    rw [this]
    rfl
  · intro lvl hl hmem hne
    have h4 : lvl ≠ "fast" ∧ lvl ≠ "balanced" ∧ lvl ≠ "maximum" ∧ lvl ≠ "custom" := by
      refine ⟨?_, ?_, ?_, ?_⟩ <;> (intro h; exact hmem (by simp [h]))
    have hs : CompressionEngine.strategies cfg lvl = none := by
      simp [CompressionEngine.strategies, h4.1, h4.2.1, h4.2.2.1, h4.2.2.2]
    unfold CompressionEngine.selectStrategy
    rw [hl, CompressionEngine.jsOrStr_some, if_neg hne]
    refine ⟨_, rfl, ?_⟩
    show (match CompressionEngine.strategies cfg lvl with
      | some base => CompressionEngine.mergePlan lvl base o
      | none => CompressionEngine.mergePlan "custom"
          (cfg.compressionStrategy.getD ⟨none, none, none⟩) o).name = "custom"
    rw [hs]
    rfl

/-- C8 witness: the selector applied to a concrete engine configuration and
an unknown caller level `"weird"`, which yields the `custom` plan. -/
theorem selectStrategy_pure_total_witness :
    ∃ p, CompressionEngine.selectStrategy ⟨some "balanced", none⟩
        ⟨some "weird", none, none, none⟩ = Except.ok p ∧ p.name = "custom" :=
  (selectStrategy_pure_total ⟨some "balanced", none⟩
    ⟨some "weird", none, none, none⟩).2.2 "weird" rfl (by decide) (by decide)

/-! ## PNG codec (src `PNGCompression.js`)

Scanline filter selection (claim C4) and the median-cut colour quantizer
(claim C5).  Filter codes: 0 = NONE, 1 = SUB, 2 = UP, 3 = AVERAGE,
4 = PAETH. -/

namespace PNGCompression

/-- `PNGCompression.paethPredictor`. -/
def paethPredictor (left up upLeft : ℤ) : ℤ :=
  let p := left + up - upLeft
  let pLeft := |p - left|
  let pUp := |p - up|
  let pUpLeft := |p - upLeft|
  if pLeft ≤ pUp ∧ pLeft ≤ pUpLeft then left
  else if pUp ≤ pUpLeft then up
  else upLeft

/-- `PNGCompression.applyFilterPixel`.  Array reads are modelled with default
`0` (`data[...] || 0` for `current`; the other reads are guarded by the
`col >= 4` / `row > 0` tests and are in bounds whenever
`data.length = width*height*4` and `row < height`, the situation of every
call site).  `(x) & 0xFF` on a byte difference is `x % 256` on integers.
The `height` parameter is unused, as in the source. -/
def applyFilterPixel (data : List ℕ) (width height row col : ℕ)
    (filter : ℕ) : ℕ :=
  let rowStart := row * width * 4
  let current : ℤ := data.getD (rowStart + col) 0
  match filter with
  | 1 =>
      let left : ℤ := if 4 ≤ col then data.getD (rowStart + col - 4) 0 else 0
      ((current - left) % 256).toNat
  | 2 =>
      let up : ℤ := if 0 < row then data.getD ((row - 1) * width * 4 + col) 0 else 0
      ((current - up) % 256).toNat
  | 3 =>
      let leftAvg : ℤ := if 4 ≤ col then data.getD (rowStart + col - 4) 0 else 0
      let upAvg : ℤ := if 0 < row then data.getD ((row - 1) * width * 4 + col) 0 else 0
      ((current - (leftAvg + upAvg) / 2) % 256).toNat
  | 4 =>
      let leftPaeth : ℤ := if 4 ≤ col then data.getD (rowStart + col - 4) 0 else 0
      let upPaeth : ℤ := if 0 < row then data.getD ((row - 1) * width * 4 + col) 0 else 0
      let upLeftPaeth : ℤ :=
        if 0 < row ∧ 4 ≤ col then data.getD ((row - 1) * width * 4 + col - 4) 0 else 0
      ((current - paethPredictor leftPaeth upPaeth upLeftPaeth) % 256).toNat
  | _ => current.toNat

/-- `PNGCompression.calculateFilterScore`: the sum over the row's
`width * 4` byte positions of `Math.abs` of the filtered byte.  The filtered
values are already non-negative naturals (each is a byte after `& 0xFF`), so
`Math.abs` is the identity here. -/
def calculateFilterScore (data : List ℕ) (width height row : ℕ)
    (filter : ℕ) : ℕ :=
  ((List.range (width * 4)).map
    (fun x => applyFilterPixel data width height row x filter)).sum

/-- The candidate list `filters` of `selectFilter`, in source order:
NONE, SUB, UP, AVERAGE, PAETH. -/
def filterCandidates : List ℕ := [0, 1, 2, 3, 4]

/-- `score < bestScore` where `bestScore` starts as `Infinity` (`none`). -/
def scoreLt (score : ℕ) : Option ℕ → Bool
  | none => true
  | some best => score < best

/-- `PNGCompression.selectFilter`, `filter: 'auto'` branch: fold over the five
candidates, keeping the first one whose score is strictly below the best so
far (initially `Infinity`).  (The non-`'auto'` branch of the source reads the
nonexistent `this.FILTER_TYPES` table and is not part of the adaptive
selection this models.) -/
def selectFilter (data : List ℕ) (width height row : ℕ) : ℕ :=
  (filterCandidates.foldl
    (fun best filter =>
      let score := calculateFilterScore data width height row filter
      if scoreLt score best.2 then (filter, some score) else best)
    (0, (none : Option ℕ))).1

/-! Median-cut quantizer.  A pixel is an `[r, g, b]` triple. -/

/-- One RGB pixel as `medianCut` sees it. -/
abbrev Pixel := ℤ × ℤ × ℤ

/-- `p[channel]` for `channel ∈ {0, 1, 2}`. -/
def channelVal (p : Pixel) : ℕ → ℤ
  | 0 => p.1
  | 1 => p.2.1
  | _ => p.2.2

/-- Stable insertion of a pixel into a list sorted by the given channel;
models one step of the (stable) JS `Array.prototype.sort` with comparator
`(a, b) => a[channel] - b[channel]`. -/
def insertByChannel (ch : ℕ) (p : Pixel) : List Pixel → List Pixel
  | [] => [p]
  | q :: rest =>
      if channelVal p ch ≤ channelVal q ch then p :: q :: rest
      else q :: insertByChannel ch p rest

/-- Stable sort by one colour channel (the JS in-place
`pixels.sort((a, b) => a[channel] - b[channel])`). -/
def sortByChannel (ch : ℕ) (l : List Pixel) : List Pixel :=
  l.foldr (insertByChannel ch) []

theorem length_insertByChannel (ch : ℕ) (p : Pixel) :
    ∀ l : List Pixel, (insertByChannel ch p l).length = l.length + 1 := by
  intro l
  induction l with
  | nil => rfl
  | cons q rest ih =>
      unfold insertByChannel
      by_cases h : channelVal p ch ≤ channelVal q ch <;> simp [h, ih]

theorem length_sortByChannel (ch : ℕ) (l : List Pixel) :
    (sortByChannel ch l).length = l.length := by
  induction l with
  | nil => rfl
  | cons q rest ih => simp [sortByChannel, List.foldr_cons, length_insertByChannel]
                      simpa [sortByChannel] using ih

/-- The channel choice of `medianCut`: the channel of largest range,
`rangeR >= rangeG && rangeR >= rangeB ? 0 : rangeG >= rangeB ? 1 : 2`, with
the mins and maxes accumulated from `255` and `0` as in the source. -/
def widestChannel (pixels : List Pixel) : ℕ :=
  let minR := pixels.foldl (fun m p => min m p.1) 255
  let maxR := pixels.foldl (fun m p => max m p.1) 0
  let minG := pixels.foldl (fun m p => min m p.2.1) 255
  let maxG := pixels.foldl (fun m p => max m p.2.1) 0
  let minB := pixels.foldl (fun m p => min m p.2.2) 255
  let maxB := pixels.foldl (fun m p => max m p.2.2) 0
  let rangeR := maxR - minR
  let rangeG := maxG - minG
  let rangeB := maxB - minB
  if rangeR ≥ rangeG ∧ rangeR ≥ rangeB then 0
  else if rangeG ≥ rangeB then 1
  else 2

/-- `PNGCompression.medianCut`, with an explicit recursion-depth budget
(`fuel`): `none` means the call makes no answer within that depth, and a
result that is `none` for every fuel is a non-terminating (infinitely
recursing) call of the source function.  Splitting sorts by the widest
channel, takes `Math.floor(length / 2)` as the median, and recurses with
budgets `Math.floor(maxColors / 2)` and `Math.ceil(maxColors / 2)`. -/
def medianCut : ℕ → List Pixel → ℕ → Option (List Pixel)
  | 0, _, _ => none
  | fuel + 1, pixels, maxColors =>
      if pixels.length ≤ maxColors then some pixels
      else
        let sorted := sortByChannel (widestChannel pixels) pixels
        let median := sorted.length / 2
        let left := sorted.take median
        let right := sorted.drop median
        match medianCut fuel left (maxColors / 2) with
        | none => none
        | some leftColors =>
            match medianCut fuel right ((maxColors + 1) / 2) with
            | none => none
            | some rightColors => some (leftColors ++ rightColors)

end PNGCompression

/-- Generic shape of `selectFilter`'s fold: over candidates `[0,1,2,3,4]`
with scores `s`, the fold returns the first candidate achieving the minimal
score (strict improvement required to replace the incumbent). -/
theorem foldlScore_first_argmin (s : ℕ → ℕ) :
    ∀ r : ℕ × Option ℕ,
      r = [0, 1, 2, 3, 4].foldl
        (fun best filter =>
          if PNGCompression.scoreLt (s filter) best.2 then (filter, some (s filter))
          else best)
        (0, (none : Option ℕ)) →
      (r.1 ∈ [0, 1, 2, 3, 4] ∧
       (∀ f ∈ [0, 1, 2, 3, 4], s r.1 ≤ s f) ∧
       (∀ f ∈ [0, 1, 2, 3, 4], s f = s r.1 → r.1 ≤ f)) := by
  intro r hr
  simp only [List.foldl_cons, List.foldl_nil, PNGCompression.scoreLt] at hr
  split_ifs at hr <;>
    (subst hr;
     refine ⟨by simp, ?_, ?_⟩ <;>
       (intro f hf; simp only [List.mem_cons, List.not_mem_nil, or_false] at hf;
        rcases hf with rfl | rfl | rfl | rfl | rfl <;> simp_all <;> omega))

/-- C4: per scanline, `selectFilter` considers exactly the five candidates
{NONE, SUB, UP, AVERAGE, PAETH} in that order, scores each by the sum of
absolute filtered-byte values over the row (`calculateFilterScore`), and
returns a candidate of minimal score, ties resolved in favour of the earliest
candidate in the enumeration. -/
theorem selectFilter_first_argmin (data : List ℕ) (width height row : ℕ) :
    PNGCompression.selectFilter data width height row ∈
      PNGCompression.filterCandidates ∧
    (∀ f ∈ PNGCompression.filterCandidates,
      PNGCompression.calculateFilterScore data width height row
          (PNGCompression.selectFilter data width height row) ≤
        PNGCompression.calculateFilterScore data width height row f) ∧
    (∀ f ∈ PNGCompression.filterCandidates,
      PNGCompression.calculateFilterScore data width height row f =
        PNGCompression.calculateFilterScore data width height row
          (PNGCompression.selectFilter data width height row) →
      PNGCompression.selectFilter data width height row ≤ f) :=
  foldlScore_first_argmin
    (PNGCompression.calculateFilterScore data width height row) _ rfl

/-- C4 witness: the selection theorem applied to a concrete 2×2 buffer and
row 1, with the minimality conclusion instantiated at the UP filter. -/
theorem selectFilter_first_argmin_witness :
    PNGCompression.calculateFilterScore
        [10, 20, 30, 255, 10, 20, 30, 255, 10, 20, 30, 255, 11, 22, 33, 255] 2 2 1
        (PNGCompression.selectFilter
          [10, 20, 30, 255, 10, 20, 30, 255, 10, 20, 30, 255, 11, 22, 33, 255] 2 2 1) ≤
      PNGCompression.calculateFilterScore
        [10, 20, 30, 255, 10, 20, 30, 255, 10, 20, 30, 255, 11, 22, 33, 255] 2 2 1 2 :=
  (selectFilter_first_argmin
    [10, 20, 30, 255, 10, 20, 30, 255, 10, 20, 30, 255, 11, 22, 33, 255] 2 2 1).2.1
    2 (by decide)

/-- C5: the two behaviours of `medianCut`.  When the pixel set is not larger
than the target palette size, the pixel list itself is returned unchanged —
no bucket means are ever computed.  When the pixel set is strictly larger
than the target, the call returns no result at any recursion depth: the
recursion never terminates (the budget halves to 0 while a nonempty bucket
remains, at which point the function re-invokes itself on an identical
subproblem). -/
theorem medianCut_identity_or_diverges :
    (∀ fuel (pixels : List PNGCompression.Pixel) maxColors,
      pixels.length ≤ maxColors →
      PNGCompression.medianCut (fuel + 1) pixels maxColors = some pixels) ∧
    (∀ fuel (pixels : List PNGCompression.Pixel) maxColors,
      maxColors < pixels.length →
      PNGCompression.medianCut fuel pixels maxColors = none) := by
  constructor
  · intro fuel pixels m h
    unfold PNGCompression.medianCut
    rw [if_pos h]
  · intro fuel
    induction fuel with
    | zero => intro pixels m h; rfl
    | succ n ih =>
        intro pixels m h
        simp only [PNGCompression.medianCut]
        rw [if_neg (by omega)]
        have hlen : (PNGCompression.sortByChannel
            (PNGCompression.widestChannel pixels) pixels).length = pixels.length :=
          PNGCompression.length_sortByChannel _ _
        by_cases hodd : m % 2 = 1
        · have hleft : m / 2 <
              ((PNGCompression.sortByChannel (PNGCompression.widestChannel pixels)
                  pixels).take
                ((PNGCompression.sortByChannel (PNGCompression.widestChannel pixels)
                  pixels).length / 2)).length := by
            simp only [List.length_take, hlen]
            omega
          rw [ih _ _ hleft]
        · have hright : (m + 1) / 2 <
              ((PNGCompression.sortByChannel (PNGCompression.widestChannel pixels)
                  pixels).drop
                ((PNGCompression.sortByChannel (PNGCompression.widestChannel pixels)
                  pixels).length / 2)).length := by
            simp only [List.length_drop, hlen]
            omega
          cases hcall : PNGCompression.medianCut n
              ((PNGCompression.sortByChannel (PNGCompression.widestChannel pixels)
                  pixels).take
                ((PNGCompression.sortByChannel (PNGCompression.widestChannel pixels)
                  pixels).length / 2)) (m / 2) with
          | none => rfl
          | some leftColors => rw [ih _ _ hright]

/-- C5 witness: at the concrete failing input — two distinct pixels,
target palette size 1 — the quantizer returns no palette at recursion depth
40 (nor at any other), while a two-pixel set with target 4 is returned
verbatim, not replaced by bucket means. -/
theorem medianCut_identity_or_diverges_witness :
    PNGCompression.medianCut 40 [(0, 0, 0), (10, 0, 0)] 1 = none ∧
    PNGCompression.medianCut 40 [(0, 0, 0), (10, 0, 0)] 4 =
      some [(0, 0, 0), (10, 0, 0)] :=
  ⟨medianCut_identity_or_diverges.2 40 [(0, 0, 0), (10, 0, 0)] 1 (by decide),
   medianCut_identity_or_diverges.1 39 [(0, 0, 0), (10, 0, 0)] 4 (by decide)⟩

/-! ## Generic helpers for loops that write into a typed array -/

/-- A fold whose step preserves list length preserves list length. -/
theorem foldl_length_invariant {ι : Type} (step : List ℕ → ι → List ℕ)
    (hstep : ∀ a i, (step a i).length = a.length) :
    ∀ (l : List ι) (init : List ℕ), (l.foldl step init).length = init.length := by
  intro l
  induction l with
  | nil => intro init; rfl
  | cons e rest ih => intro init; rw [List.foldl_cons, ih, hstep]

/-- A fold whose step leaves position `i` unchanged leaves position `i`
unchanged. -/
theorem foldl_getD_invariant {ι : Type} (step : List ℕ → ι → List ℕ) (i : ℕ)
    (hstep : ∀ a el, (step a el).getD i 0 = a.getD i 0) :
    ∀ (l : List ι) (init : List ℕ), (l.foldl step init).getD i 0 = init.getD i 0 := by
  intro l
  induction l with
  | nil => intro init; rfl
  | cons e rest ih => intro init; rw [List.foldl_cons, ih, hstep]

/-- As `foldl_getD_invariant`, with the step hypothesis restricted to the
elements actually folded over. -/
theorem foldl_getD_invariant_mem {ι : Type} (step : List ℕ → ι → List ℕ) (i : ℕ) :
    ∀ (l : List ι) (init : List ℕ),
      (∀ a, ∀ el ∈ l, (step a el).getD i 0 = a.getD i 0) →
      (l.foldl step init).getD i 0 = init.getD i 0 := by
  intro l
  induction l with
  | nil => intro init _; rfl
  | cons e rest ih =>
      intro init h
      rw [List.foldl_cons, ih _ (fun a el hel => h a el (List.mem_cons_of_mem e hel)),
        h init e (List.mem_cons_self e rest)]

/-- Writing at an index different from `i` does not change position `i`. -/
theorem getD_set_ne (l : List ℕ) (i j v : ℕ) (h : i ≠ j) :
    (l.set j v).getD i 0 = l.getD i 0 := by
  simp [List.getD, List.getElem?_set_ne (Ne.symm h)]

/-- Writing at an in-bounds index `i` stores the value at position `i`. -/
theorem getD_set_self (l : List ℕ) (i v : ℕ) (h : i < l.length) :
    (l.set i v).getD i 0 = v := by
  simp [List.getD, List.getElem?_set_self, h]

/-- A fold that writes value `w k` at position `4*k` for each `k` of a
duplicate-free index list yields, at an in-bounds position `i ≡ 0 (mod 4)`
with `i/4` in the list, the value `w (i/4)`. -/
theorem foldl_set_stride_getD (w : ℕ → ℕ) :
    ∀ (ks : List ℕ) (init : List ℕ) (i : ℕ),
      ks.Nodup → i / 4 ∈ ks → i % 4 = 0 → i < init.length →
      ((ks.foldl (fun a k => a.set (4 * k) (w k)) init).getD i 0) = w (i / 4) := by
  intro ks
  induction ks with
  | nil => intro init i _ hmem; simp at hmem
  | cons k rest ih =>
      intro init i hnd hmem hmod hlt
      rw [List.foldl_cons]
      rcases List.mem_cons.mp hmem with hk | hk
      · have hi : 4 * k = i := by omega
        have hknotin : k ∉ rest := (List.nodup_cons.mp hnd).1
        rw [foldl_getD_invariant_mem _ i rest _ ?_]
        · rw [hi, getD_set_self init i (w k) hlt, hk]
        · intro a el hel
          refine getD_set_ne a i (4 * el) (w el) ?_
          have : el ≠ k := fun he => hknotin (he ▸ hel)
          omega
      · have hlen : (init.set (4 * k) (w k)).length = init.length := by simp
        exact ih _ i (List.nodup_cons.mp hnd).2 hk hmod (hlen ▸ hlt)

/-! ## JPEG codec (src `JPEGCompression.js`)

Colour conversion, 4:2:0 chroma subsampling, the 8×8 DCT with quantization,
and the (simplified) byte-stream assembly.  The canvas round-trip of
`compress` (`createCanvas` + `getImageData`) reproduces the RGBA samples and
is modelled as the identity on the pixel data. -/

namespace JPEGCompression

/-- `Math.round` of JS: round half towards `+∞`. -/
def jsRound (q : ℚ) : ℤ := ⌊q + 1 / 2⌋

/-- `Math.max(0, Math.min(255, z))`, then stored in a `Uint8Array`. -/
def clampByte (z : ℤ) : ℕ := (max 0 (min 255 z)).toNat

/-- The `this.luminanceQuantTable` of the constructor. -/
def luminanceQuantTable : List ℕ :=
  [16, 11, 10, 16, 24, 40, 51, 61,
   12, 12, 14, 19, 26, 58, 60, 55,
   14, 13, 16, 24, 40, 57, 69, 56,
   14, 17, 22, 29, 51, 87, 80, 62,
   18, 22, 37, 56, 68, 109, 103, 77,
   24, 35, 55, 64, 81, 104, 113, 92,
   49, 64, 78, 87, 103, 121, 120, 101,
   72, 92, 95, 98, 112, 100, 103, 99]

/-- The `this.chrominanceQuantTable` of the constructor. -/
def chrominanceQuantTable : List ℕ :=
  [17, 18, 24, 47, 99, 99, 99, 99,
   18, 21, 26, 66, 99, 99, 99, 99,
   24, 26, 56, 99, 99, 99, 99, 99,
   47, 66, 99, 99, 99, 99, 99, 99,
   99, 99, 99, 99, 99, 99, 99, 99,
   99, 99, 99, 99, 99, 99, 99, 99,
   99, 99, 99, 99, 99, 99, 99, 99,
   99, 99, 99, 99, 99, 99, 99, 99]

/-- The quantization-table entry `quantTable[i]` used by `quantizeBlock`:
luminance for channel 0, chrominance otherwise. -/
def quantTableAt (channel : ℕ) (i : Fin 64) : ℕ :=
  (if channel = 0 then luminanceQuantTable else chrominanceQuantTable).getD i 0

/-- `JPEGCompression.calculateQualityScale`: threshold buckets mapping a
quality number to the factor applied to every quantization-table entry; the
function is total on all of `ℚ` — it performs no range validation. -/
def calculateQualityScale (quality : ℚ) : ℚ :=
  if quality ≥ 0.9 then 0.5
  else if quality ≥ 0.8 then 0.75
  else if quality ≥ 0.7 then 1.0
  else if quality ≥ 0.6 then 1.25
  else if quality ≥ 0.5 then 1.5
  else 2.0

/-- `JPEGCompression.convertRGBToYCbCr` (BT.601 coefficients, exact rational
arithmetic): a fresh zero array of the input's length, each 4-byte pixel
converted and clamped, alpha copied.  The loop `for (i = 0; i < length;
i += 4)` performs `⌈length/4⌉` iterations. -/
def convertRGBToYCbCr (rgbData : List ℕ) : List ℕ :=
  (List.range ((rgbData.length + 3) / 4)).foldl
    (fun acc k =>
      let i := 4 * k
      let r : ℚ := rgbData.getD i 0
      let g : ℚ := rgbData.getD (i + 1) 0
      let b : ℚ := rgbData.getD (i + 2) 0
      let y := jsRound (0.299 * r + 0.587 * g + 0.114 * b)
      let cb := jsRound (128 - 0.168736 * r - 0.331264 * g + 0.5 * b)
      let cr := jsRound (128 + 0.5 * r - 0.418688 * g - 0.081312 * b)
      ((((acc.set i (clampByte y)).set (i + 1) (clampByte cb)).set
          (i + 2) (clampByte cr)).set (i + 3) (rgbData.getD (i + 3) 0)))
    (List.replicate rgbData.length 0)

/-- `ycbcrData[idx + off] || 128`: an absent (out-of-bounds) or zero chroma
sample reads as 128 (JS `0` and `undefined` are both falsy). -/
def chromaRead (src : List ℕ) (idx : ℕ) : ℚ :=
  let v := src.getD idx 0
  if v = 0 then 128 else v

/-- The body of the 2×2 subsampling loop of `applyChromaSubsampling` for one
block at `(x, y)`: average the four Cb and the four Cr samples, write the
averages to all four chroma positions (the chained JS assignment writes
right-to-left: `pos4` first), and copy the four alpha samples.  `List.set`
drops out-of-range writes exactly as a `Uint8Array` store does. -/
def subsampleBlock (src : List ℕ) (width : ℕ) (acc : List ℕ) (x y : ℕ) :
    List ℕ :=
  let pos1 := (y * width + x) * 4
  let pos2 := (y * width + x + 1) * 4
  let pos3 := ((y + 1) * width + x) * 4
  let pos4 := ((y + 1) * width + x + 1) * 4
  let avgCb := (jsRound ((chromaRead src (pos1 + 1) + chromaRead src (pos2 + 1) +
    chromaRead src (pos3 + 1) + chromaRead src (pos4 + 1)) / 4)).toNat
  let avgCr := (jsRound ((chromaRead src (pos1 + 2) + chromaRead src (pos2 + 2) +
    chromaRead src (pos3 + 2) + chromaRead src (pos4 + 2)) / 4)).toNat
  ((((((((((((acc.set (pos4 + 1) avgCb).set (pos3 + 1) avgCb).set
    (pos2 + 1) avgCb).set (pos1 + 1) avgCb).set
    (pos4 + 2) avgCr).set (pos3 + 2) avgCr).set
    (pos2 + 2) avgCr).set (pos1 + 2) avgCr).set
    (pos1 + 3) (src.getD (pos1 + 3) 0)).set
    (pos2 + 3) (src.getD (pos2 + 3) 0)).set
    (pos3 + 3) (src.getD (pos3 + 3) 0)).set
    (pos4 + 3) (src.getD (pos4 + 3) 0))

/-- The even values `0, 2, 4, …` strictly below `n`, in order: the indices of
a `for (v = 0; v < n; v += 2)` loop. -/
def evensBelow (n : ℕ) : List ℕ := (List.range n).filter (fun v => v % 2 = 0)

/-- `JPEGCompression.applyChromaSubsampling` (4:2:0): copy the Y channel of
every pixel into a fresh zero array, then average chroma over 2×2 blocks. -/
def applyChromaSubsampling (ycbcrData : List ℕ) (width height : ℕ) : List ℕ :=
  let copyY := (List.range ((ycbcrData.length + 3) / 4)).foldl
    (fun acc k => acc.set (4 * k) (ycbcrData.getD (4 * k) 0))
    (List.replicate ycbcrData.length 0)
  (evensBelow height).foldl
    (fun acc y =>
      (evensBelow width).foldl (fun acc2 x => subsampleBlock ycbcrData width acc2 x y) acc)
    copyY

end JPEGCompression

namespace JPEGCompression

/-- `Math.round` on a real (JS rounds half towards `+∞`). -/
noncomputable def jsRoundR (x : ℝ) : ℤ := ⌊x + 1 / 2⌋

/-- The multiples of 8 strictly below `n`, in order: the indices of a
`for (v = 0; v < n; v += 8)` loop. -/
def blockStarts (n : ℕ) : List ℕ := (List.range ((n + 7) / 8)).map (fun k => 8 * k)

/-- `JPEGCompression.extractBlock`: one 8×8 single-channel block, clamped to
the last valid row/column at the image edge and centred around 128.  The
block index `y*8 + x` decomposes as `x = idx % 8`, `y = idx / 8`. -/
def extractBlock (data : List ℕ) (width height startX startY channel : ℕ)
    (idx : Fin 64) : ℝ :=
  let x := idx.val % 8
  let y := idx.val / 8
  let pixelX := min (startX + x) (width - 1)
  let pixelY := min (startY + y) (height - 1)
  ((data.getD ((pixelY * width + pixelX) * 4 + channel) 0 : ℝ)) - 128

/-- The scaling factor `u === 0 ? 1 / Math.sqrt(2) : 1` of `applyDCT`. -/
noncomputable def scaleC (u : ℕ) : ℝ := if u = 0 then 1 / Real.sqrt 2 else 1

/-- `JPEGCompression.applyDCT`: the coefficient stored at `dctBlock[v*8+u]`
is the double cosine sum over the block, multiplied by the two axis factors
and the normalization `scale = 1/16`. -/
noncomputable def applyDCT (block : Fin 64 → ℝ) : Fin 64 → ℝ := fun idx =>
  let u := idx.val % 8
  let v := idx.val / 8
  (∑ x : Fin 8, ∑ y : Fin 8,
      block ⟨y.val * 8 + x.val, by omega⟩ *
        Real.cos ((2 * x.val + 1) * u * Real.pi / 16) *
        Real.cos ((2 * y.val + 1) * v * Real.pi / 16)) *
    scaleC u * scaleC v * (1 / 16)

/-- `JPEGCompression.quantizeBlock`: divide each coefficient by its
position-dependent quantization step `quantTable[i] * qualityScale` and
round. -/
noncomputable def quantizeBlock (dctBlock : Fin 64 → ℝ) (channel : ℕ)
    (qualityScale : ℚ) : Fin 64 → ℤ := fun i =>
  jsRoundR (dctBlock i / ((quantTableAt channel i : ℝ) * (qualityScale : ℝ)))

/-- `JPEGCompression.writeBlock`: store each quantized coefficient plus 128,
clamped to a byte, at its pixel position (edge positions clamped to the last
valid row/column, later writes overwriting earlier ones as in the source's
loops, `y` outer and `x` inner). -/
noncomputable def writeBlock (data : List ℕ) (width height startX startY channel : ℕ)
    (quantizedBlock : Fin 64 → ℤ) : List ℕ :=
  (List.finRange 64).foldl
    (fun acc i =>
      let x := i.val % 8
      let y := i.val / 8
      let pixelX := min (startX + x) (width - 1)
      let pixelY := min (startY + y) (height - 1)
      acc.set ((pixelY * width + pixelX) * 4 + channel)
        (clampByte (quantizedBlock i + 128)))
    data

/-- `JPEGCompression.performDCTQuantization`: process the image in 8×8
blocks, per colour channel 0‥2, writing into a fresh zero array of the
input's length. -/
noncomputable def performDCTQuantization (ycbcrData : List ℕ) (width height : ℕ)
    (quality : ℚ) : List ℕ :=
  let qualityScale := calculateQualityScale quality
  (blockStarts height).foldl
    (fun acc y =>
      (blockStarts width).foldl
        (fun acc2 x =>
          ([0, 1, 2] : List ℕ).foldl
            (fun acc3 channel =>
              writeBlock acc3 width height x y channel
                (quantizeBlock (applyDCT (extractBlock ycbcrData width height x y channel))
                  channel qualityScale))
            acc2)
        acc)
    (List.replicate ycbcrData.length 0)

/-- `JPEGCompression.encodeImageData`: the Start-of-Scan header bytes, then
for every 4-byte pixel of the processed data its Y, Cb and Cr bytes (the
loop `for (i = 0; i < length; i += 4)` performs `⌈length/4⌉` iterations). -/
def encodeImageData (processedData : List ℕ) : List ℕ :=
  [0xFF, 0xDA, 0x00, 0x0C, 0x03, 0x01, 0x00, 0x02, 0x11, 0x03, 0x11,
   0x00, 0x3F, 0x00] ++
  (List.range ((processedData.length + 3) / 4)).flatMap
    (fun k => [processedData.getD (4 * k) 0, processedData.getD (4 * k + 1) 0,
      processedData.getD (4 * k + 2) 0])

/-- `JPEGCompression.encodeJPEG`: SOI, APP0/JFIF, SOF0 (with the big-endian
height and width bytes), the scan data, and EOI. -/
def encodeJPEG (processedData : List ℕ) (width height : ℕ) : List ℕ :=
  [0xFF, 0xD8] ++
  [0xFF, 0xE0, 0x00, 0x10, 0x4A, 0x46, 0x49, 0x46, 0x00, 0x01, 0x01, 0x01,
   0x00, 0x48, 0x00, 0x48, 0x00, 0x00] ++
  [0xFF, 0xC0, 0x00, 0x11, 0x08, height / 256 % 256, height % 256,
   width / 256 % 256, width % 256, 0x03, 0x01, 0x11, 0x00, 0x02, 0x11, 0x01,
   0x03, 0x11, 0x01] ++
  encodeImageData processedData ++
  [0xFF, 0xD9]

/-- The fields of the `imageData` argument of `compress` that the pipeline
reads. -/
structure JSImageData where
  width : ℕ
  height : ℕ
  data : List ℕ

/-- The fields of the `options` argument of `compress` that the pipeline
reads; `none` models an absent property. -/
structure JpegOptions where
  quality : Option ℚ
  chromaSubsampling : Option Bool
  progressive : Option Bool

/-- The result object of `compress`. -/
structure JpegResult where
  data : List ℕ
  size : ℕ
  width : ℕ
  height : ℕ
  format : String
  quality : ℚ

/-- `options.quality || 0.8`: an absent or zero quality reads as 0.8. -/
def effectiveQuality (o : JpegOptions) : ℚ :=
  match o.quality with
  | some q => if q = 0 then 0.8 else q
  | none => 0.8

/-- `JPEGCompression.compress`.  The canvas round-trip is the identity on
the pixel samples; `options.chromaSubsampling !== false` enables subsampling
unless the property is literally `false`.  The body performs no validation of
`options.quality` or of the dimensions, and contains no algorithmic throw
site, so the `catch`-and-rethrow (`CompressionError`) branch is never taken
within the modelled fragment: every input produces a complete stream via
`ok`. -/
noncomputable def compress (imageData : JSImageData) (options : JpegOptions) :
    Except String JpegResult :=
  let ycbcrData := convertRGBToYCbCr imageData.data
  let subsampledData :=
    if options.chromaSubsampling ≠ some false then
      applyChromaSubsampling ycbcrData imageData.width imageData.height
    else ycbcrData
  let compressedData := performDCTQuantization subsampledData imageData.width
    imageData.height (effectiveQuality options)
  let jpegData := encodeJPEG compressedData imageData.width imageData.height
  .ok
    { data := jpegData, size := jpegData.length, width := imageData.width,
      height := imageData.height, format := "jpeg",
      quality := effectiveQuality options }

end JPEGCompression

namespace JPEGCompression

theorem length_convertRGBToYCbCr (rgbData : List ℕ) :
    (convertRGBToYCbCr rgbData).length = rgbData.length := by
  simp only [convertRGBToYCbCr]
  refine (foldl_length_invariant _ ?_ _ _).trans (by simp)
  intro a k
  simp

theorem length_subsampleBlock (src : List ℕ) (width : ℕ) (acc : List ℕ)
    (x y : ℕ) : (subsampleBlock src width acc x y).length = acc.length := by
  simp [subsampleBlock]

theorem length_applyChromaSubsampling (data : List ℕ) (w h : ℕ) :
    (applyChromaSubsampling data w h).length = data.length := by
  simp only [applyChromaSubsampling]
  refine (foldl_length_invariant _ ?_ _ _).trans
    ((foldl_length_invariant _ ?_ _ _).trans (by simp))
  · intro a yv
    exact foldl_length_invariant _ (fun a2 x => length_subsampleBlock data w a2 x yv) _ _
  · intro a k
    simp

theorem length_writeBlock (data : List ℕ) (width height startX startY channel : ℕ)
    (qb : Fin 64 → ℤ) :
    (writeBlock data width height startX startY channel qb).length = data.length := by
  simp only [writeBlock]
  exact foldl_length_invariant _ (fun a i => by simp) _ _

theorem length_performDCTQuantization (data : List ℕ) (w h : ℕ) (q : ℚ) :
    (performDCTQuantization data w h q).length = data.length := by
  simp only [performDCTQuantization]
  refine (foldl_length_invariant _ ?_ _ _).trans (by simp)
  intro a yv
  refine foldl_length_invariant _ ?_ _ _
  intro a2 x
  exact foldl_length_invariant _
    (fun a3 ch => length_writeBlock a3 w h x yv ch _) _ _

theorem length_encodeImageData (p : List ℕ) :
    (encodeImageData p).length = 14 + 3 * ((p.length + 3) / 4) := by
  simp [encodeImageData, List.length_flatMap, Function.comp_def]
  omega

theorem length_encodeJPEG (p : List ℕ) (w h : ℕ) :
    (encodeJPEG p w h).length = 55 + 3 * ((p.length + 3) / 4) := by
  simp [encodeJPEG, length_encodeImageData]
  omega

/-- `compress` always succeeds and its output byte size is
`55 + 3 * ⌈data.length / 4⌉`, a function of the buffer dimensions only —
in particular independent of the plan's quality. -/
theorem compress_size (img : JSImageData) (o : JpegOptions) :
    ∃ r, compress img o = Except.ok r ∧
      r.size = 55 + 3 * ((img.data.length + 3) / 4) := by
  refine ⟨_, rfl, ?_⟩
  show (encodeJPEG (performDCTQuantization
      (if o.chromaSubsampling ≠ some false then
        applyChromaSubsampling (convertRGBToYCbCr img.data) img.width img.height
      else convertRGBToYCbCr img.data) img.width img.height
      (effectiveQuality o)) img.width img.height).length = _
  rw [length_encodeJPEG, length_performDCTQuantization]
  by_cases hcs : o.chromaSubsampling ≠ some false
  · rw [if_pos hcs, length_applyChromaSubsampling, length_convertRGBToYCbCr]
  · rw [if_neg hcs, length_convertRGBToYCbCr]

end JPEGCompression

/-- C10: 4:2:0 chroma subsampling preserves the luma channel — for every
input sample array and dimensions, every in-bounds byte at offset
`0 (mod 4)` (a Y sample) of the output equals the corresponding input byte;
the averaging loop writes only at offsets `1`, `2`, `3 (mod 4)` (chroma and
alpha). -/
theorem applyChromaSubsampling_preserves_luma (data : List ℕ) (w h i : ℕ)
    (hi : i < data.length) (h4 : i % 4 = 0) :
    (JPEGCompression.applyChromaSubsampling data w h).getD i 0 = data.getD i 0 := by
  have key : ∀ (q c : ℕ), c % 4 ≠ 0 → i ≠ q * 4 + c := by
    intro q c hc
    omega
  have hblock : ∀ (acc : List ℕ) (x y : ℕ),
      (JPEGCompression.subsampleBlock data w acc x y).getD i 0 = acc.getD i 0 := by
    intro acc x y
    simp only [JPEGCompression.subsampleBlock]
    rw [getD_set_ne _ _ _ _ (key _ 3 (by norm_num)),
      getD_set_ne _ _ _ _ (key _ 3 (by norm_num)),
      getD_set_ne _ _ _ _ (key _ 3 (by norm_num)),
      getD_set_ne _ _ _ _ (key _ 3 (by norm_num)),
      getD_set_ne _ _ _ _ (key _ 2 (by norm_num)),
      getD_set_ne _ _ _ _ (key _ 2 (by norm_num)),
      getD_set_ne _ _ _ _ (key _ 2 (by norm_num)),
      getD_set_ne _ _ _ _ (key _ 2 (by norm_num)),
      getD_set_ne _ _ _ _ (key _ 1 (by norm_num)),
      getD_set_ne _ _ _ _ (key _ 1 (by norm_num)),
      getD_set_ne _ _ _ _ (key _ 1 (by norm_num)),
      getD_set_ne _ _ _ _ (key _ 1 (by norm_num))]
  simp only [JPEGCompression.applyChromaSubsampling]
  rw [foldl_getD_invariant _ i
    (fun acc yv => foldl_getD_invariant _ i (fun a2 x => hblock a2 x yv) _ acc)]
  have hstride := foldl_set_stride_getD (fun k => data.getD (4 * k) 0)
    (List.range ((data.length + 3) / 4)) (List.replicate data.length 0) i
    (List.nodup_range _) (by refine List.mem_range.mpr ?_; omega) h4 (by simp [hi])
  rw [hstride]
  have h44 : 4 * (i / 4) = i := by omega
  show data.getD (4 * (i / 4)) 0 = data.getD i 0
  rw [h44]

/-- C10 witness: the luma-preservation theorem at a concrete 2×2 sample
array and the Y offset of pixel 1. -/
theorem applyChromaSubsampling_preserves_luma_witness :
    (JPEGCompression.applyChromaSubsampling
        [90, 100, 110, 255, 91, 101, 111, 255, 92, 102, 112, 255, 93, 103, 113, 255]
        2 2).getD 4 0 =
      ([90, 100, 110, 255, 91, 101, 111, 255, 92, 102, 112, 255, 93, 103, 113, 255] :
        List ℕ).getD 4 0 :=
  applyChromaSubsampling_preserves_luma
    [90, 100, 110, 255, 91, 101, 111, 255, 92, 102, 112, 255, 93, 103, 113, 255]
    2 2 4 (by decide) (by decide)

/-- The quality-to-scale bucket map is antitone on all of `ℚ`. -/
theorem calculateQualityScale_antitone (q1 q2 : ℚ) (h : q2 < q1) :
    JPEGCompression.calculateQualityScale q1 ≤
      JPEGCompression.calculateQualityScale q2 := by
  unfold JPEGCompression.calculateQualityScale
  split_ifs <;> linarith

/-- C2: for the transform-quantize codec, (a) strictly higher quality gives
smaller-or-equal quantization steps: for `0 ≤ q2 < q1 ≤ 1` every
position-dependent step `quantTable[i] * qualityScale` at `q1` is at most the
step at `q2`, for both channel tables; and (b) for a fixed input buffer the
encoded output byte size at the higher quality is at least the size at the
lower quality (the sizes are in fact equal: the simplified entropy coder
emits 3 bytes per pixel regardless of quality). -/
theorem jpeg_quality_monotonicity :
    (∀ (channel : ℕ) (i : Fin 64) (q1 q2 : ℚ), 0 ≤ q2 → q2 < q1 → q1 ≤ 1 →
      (JPEGCompression.quantTableAt channel i : ℚ) *
          JPEGCompression.calculateQualityScale q1 ≤
        (JPEGCompression.quantTableAt channel i : ℚ) *
          JPEGCompression.calculateQualityScale q2) ∧
    (∀ (img : JPEGCompression.JSImageData) (cs prog : Option Bool) (q1 q2 : ℚ)
        (r1 r2 : JPEGCompression.JpegResult), 0 ≤ q2 → q2 < q1 → q1 ≤ 1 →
      JPEGCompression.compress img ⟨some q1, cs, prog⟩ = Except.ok r1 →
      JPEGCompression.compress img ⟨some q2, cs, prog⟩ = Except.ok r2 →
      r2.size ≤ r1.size) := by
  constructor
  · intro channel i q1 q2 _ h _
    have := calculateQualityScale_antitone q1 q2 h
    have hnn : (0 : ℚ) ≤ (JPEGCompression.quantTableAt channel i : ℚ) := by positivity
    exact mul_le_mul_of_nonneg_left this hnn
  · intro img cs prog q1 q2 r1 r2 _ _ _ h1 h2
    obtain ⟨s1, hs1, hsize1⟩ := JPEGCompression.compress_size img ⟨some q1, cs, prog⟩
    obtain ⟨s2, hs2, hsize2⟩ := JPEGCompression.compress_size img ⟨some q2, cs, prog⟩
    rw [h1] at hs1
    rw [h2] at hs2
    cases hs1
    cases hs2
    omega

/-- C2 witness: both parts at concrete data — the luminance DC step at
quality 0.9 versus 0.3, and the output sizes of a 1×1 opaque pixel at those
qualities. -/
theorem jpeg_quality_monotonicity_witness :
    ((JPEGCompression.quantTableAt 0 ⟨0, by norm_num⟩ : ℚ) *
        JPEGCompression.calculateQualityScale (9/10) ≤
      (JPEGCompression.quantTableAt 0 ⟨0, by norm_num⟩ : ℚ) *
        JPEGCompression.calculateQualityScale (3/10)) ∧
    ∃ r1 r2,
      JPEGCompression.compress ⟨1, 1, [10, 20, 30, 255]⟩ ⟨some (9/10), none, none⟩ =
        Except.ok r1 ∧
      JPEGCompression.compress ⟨1, 1, [10, 20, 30, 255]⟩ ⟨some (3/10), none, none⟩ =
        Except.ok r2 ∧
      r2.size ≤ r1.size := by
  constructor
  · exact jpeg_quality_monotonicity.1 0 ⟨0, by norm_num⟩ (9/10) (3/10)
      (by norm_num) (by norm_num) (by norm_num)
  · obtain ⟨r1, h1, _⟩ := JPEGCompression.compress_size ⟨1, 1, [10, 20, 30, 255]⟩
      ⟨some (9/10), none, none⟩
    obtain ⟨r2, h2, _⟩ := JPEGCompression.compress_size ⟨1, 1, [10, 20, 30, 255]⟩
      ⟨some (3/10), none, none⟩
    exact ⟨r1, r2, h1, h2,
      jpeg_quality_monotonicity.2 ⟨1, 1, [10, 20, 30, 255]⟩ none none (9/10) (3/10)
        r1 r2 (by norm_num) (by norm_num) (by norm_num) h1 h2⟩

/-- C9: in `applyDCT` the (0,0) coefficient (DC term) carries the `1/√2`
normalization on both axes — `scaleC 0 = 1/√2`, and the stored DC value is
the plain block sum multiplied by `1/2` (the product of the two axis
factors) and the global `1/16` scale, the cosines at `u = v = 0` all being
1. -/
theorem applyDCT_dc_normalization (block : Fin 64 → ℝ) :
    JPEGCompression.scaleC 0 = 1 / Real.sqrt 2 ∧
    JPEGCompression.applyDCT block ⟨0, by norm_num⟩ =
      (∑ x : Fin 8, ∑ y : Fin 8, block ⟨y.val * 8 + x.val, by omega⟩) *
        (1 / 2) * (1 / 16) := by
  constructor
  · rfl
  · simp only [JPEGCompression.applyDCT, JPEGCompression.scaleC]
    norm_num [Real.cos_zero]
    rw [mul_assoc]
    congr 1
    rw [← mul_inv, Real.mul_self_sqrt (by norm_num : (0:ℝ) ≤ 2)]
    norm_num

namespace CompressionEngine

/-- `CompressionEngine.validateInput` (the only dimension validation on the
engine's compress path; it checks nothing about quality).  `width`/`height`
are the numeric dimension fields (`0` is falsy), `hasData` is the truthiness
of `imageData.data || imageData.size`.  Every failing branch throws — the
source writes `throw new ValidationError(...)` with `ValidationError` not
imported in `CompressionEngine.js`, so at runtime the throw expression itself
raises a `ReferenceError`; either way the branch exits exceptionally, which
the `error` constructor models. -/
def validateInput (width height : ℤ) (hasData : Bool) : Except String Unit :=
  if ¬ hasData then .error "Image data must have data or size property"
  else if width = 0 ∨ height = 0 then .error "Image dimensions are required"
  else if 32767 < width ∨ 32767 < height then
    .error "Image dimensions exceed maximum allowed"
  else if width < 1 ∨ height < 1 then
    .error "Image dimensions must be at least 1x1 pixels"
  else .ok ()

end CompressionEngine

/-- C1 counterexample: the spec claims `compress` signals `EncodeFailure`
whenever the plan's quality lies outside [0,1].  At the concrete out-of-range
quality 2 on a valid 8×8 buffer, the codec does not fail: the quality feeds
`calculateQualityScale`, which buckets every quality ≥ 0.9 — including 2 —
to scale 0.5, and `compress` returns a complete result. -/
theorem compress_accepts_out_of_range_quality :
    ¬ ((2 : ℚ) ≤ 1) ∧
    JPEGCompression.calculateQualityScale 2 = 1 / 2 ∧
    ∃ r, JPEGCompression.compress ⟨8, 8, List.replicate 256 0⟩
        ⟨some 2, none, none⟩ = Except.ok r := by
  refine ⟨by norm_num, ?_, ⟨_, rfl⟩⟩
  unfold JPEGCompression.calculateQualityScale
  norm_num

/-- C1 amended: the codec's `compress` itself performs no validation at all —
it returns a complete encoded stream for every buffer and every option set,
out-of-range qualities included (quality above 1 is bucketed to scale 0.5,
negative quality to scale 2).  Dimension validation happens only in
`CompressionEngine.validateInput` on the engine path, which does reject every
dimension ≤ 0 (and never inspects quality). -/
theorem jpegCompress_no_quality_validation :
    (∀ (img : JPEGCompression.JSImageData) (o : JPEGCompression.JpegOptions),
      ∃ r, JPEGCompression.compress img o = Except.ok r) ∧
    (∀ (w h : ℤ) (hasData : Bool), w ≤ 0 ∨ h ≤ 0 →
      ∃ e, CompressionEngine.validateInput w h hasData = Except.error e) ∧
    (∀ q : ℚ, 1 < q → JPEGCompression.calculateQualityScale q = 1 / 2) ∧
    (∀ q : ℚ, q < 0 → JPEGCompression.calculateQualityScale q = 2) := by
  refine ⟨fun img o => ⟨_, rfl⟩, ?_, ?_, ?_⟩
  · intro w h hasData hdim
    unfold CompressionEngine.validateInput
    split_ifs <;> first | exact ⟨_, rfl⟩ | omega
  · intro q hq
    unfold JPEGCompression.calculateQualityScale
    split_ifs <;> linarith
  · intro q hq
    unfold JPEGCompression.calculateQualityScale
    split_ifs <;> linarith

/-- C1 witness: the amended theorem at concrete inputs — a 1×1 encode with
quality 3 succeeds, and `validateInput` rejects width −3. -/
theorem jpegCompress_no_quality_validation_witness :
    (∃ r, JPEGCompression.compress ⟨1, 1, [1, 2, 3, 255]⟩ ⟨some 3, none, none⟩ =
      Except.ok r) ∧
    (∃ e, CompressionEngine.validateInput (-3) 5 true = Except.error e) ∧
    JPEGCompression.calculateQualityScale 3 = 1 / 2 :=
  ⟨jpegCompress_no_quality_validation.1 ⟨1, 1, [1, 2, 3, 255]⟩ ⟨some 3, none, none⟩,
   jpegCompress_no_quality_validation.2.1 (-3) 5 true (Or.inl (by norm_num)),
   jpegCompress_no_quality_validation.2.2.1 3 (by norm_num)⟩

/-! ## ImageAnalyzer (src `ImageAnalyzer.js`)

The content analyzer.  `analyze` merges the records returned by
`analyzePixels`, `analyzeContent`, `analyzeQuality` and
`generateRecommendations` over a base record (later assignments overwrite
earlier fields).  It contains no validation of the buffer length against
`width*height*4` anywhere, and no algorithmic throw site: its `catch` branch
is unreachable in the embedded fragment.

Number representation: values that the source can turn into JS `NaN` or
`±Infinity` (a division whose denominator is zero, or an accumulation that
reads an absent object property) are modelled as `Option ℝ`, with `none` for
the non-finite outcome; `none` compares false against any bound, as JS `NaN`
does.  Every division-by-zero in this file that feeds a *comparison* has a
zero numerator (hence is JS `NaN`, never `+Infinity`); divisions that can
produce `Infinity` are only stored in result fields, never compared. -/

namespace ImageAnalyzer

/-- A JS division `a / d` on a possibly-non-finite numerator: `none` when
the numerator is non-finite or the denominator is zero. -/
noncomputable def jsDiv (a : Option ℝ) (d : ℝ) : Option ℝ :=
  match a with
  | none => none
  | some v => if d = 0 then none else some (v / d)

/-- JS `x > c` where `x` may be non-finite: `NaN > c` is false. -/
noncomputable def jsGt (x : Option ℝ) (c : ℝ) : Bool :=
  match x with
  | none => false
  | some v => decide (c < v)

/-- JS `x < c` where `x` may be non-finite: `NaN < c` is false. -/
noncomputable def jsLt (x : Option ℝ) (c : ℝ) : Bool :=
  match x with
  | none => false
  | some v => decide (v < c)

/-- The pixel indices of a `for (i = 0; i < data.length; i += 4)` loop. -/
def pixelIdx (data : List ℕ) : List ℕ := List.range ((data.length + 3) / 4)

/-- The red/green/blue/alpha sample of pixel `k` (out-of-bounds reads at a
ragged tail are JS `undefined`; the default 0 stands in for that junk, which
no failure behaviour depends on). -/
def sampleR (data : List ℕ) (k : ℕ) : ℕ := data.getD (4 * k) 0
def sampleG (data : List ℕ) (k : ℕ) : ℕ := data.getD (4 * k + 1) 0
def sampleB (data : List ℕ) (k : ℕ) : ℕ := data.getD (4 * k + 2) 0
def sampleA (data : List ℕ) (k : ℕ) : ℕ := data.getD (4 * k + 3) 0

/-- `0.299 * r + 0.587 * g + 0.114 * b`. -/
noncomputable def luminanceOf (r g b : ℕ) : ℝ :=
  0.299 * r + 0.587 * g + 0.114 * b

/-- `ImageAnalyzer.getLuminance` (also the inline luminance expressions):
the luminance of the pixel at `(x, y)`. -/
noncomputable def lumaAt (data : List ℕ) (width : ℕ) (x y : ℕ) : ℝ :=
  luminanceOf (data.getD ((y * width + x) * 4) 0)
    (data.getD ((y * width + x) * 4 + 1) 0)
    (data.getD ((y * width + x) * 4 + 2) 0)

/-- `Math.max(0, Math.min(limit - 1, n))`, the coordinate clamp used by the
kernel loops. -/
def clampCoord (limit : ℕ) (n : ℤ) : ℕ := (max 0 (min ((limit : ℤ) - 1) n)).toNat

/-- `ImageAnalyzer.calculateEntropy`: Shannon entropy of the `Math.round`
histogram of the luminance values. -/
noncomputable def calculateEntropy (values : List ℝ) : ℝ :=
  let rounded := values.map (fun v => JPEGCompression.jsRoundR v)
  let bins := rounded.dedup
  let total : ℝ := values.length
  Neg.neg ((bins.map (fun b =>
      let p := (rounded.count b : ℝ) / total
      if 0 < p then p * Real.logb 2 p else 0)).sum)

/-- The seven buckets of `calculateColorDistribution`. -/
inductive ColorTag where
  | red | green | blue | yellow | cyan | magenta | neutral
  deriving DecidableEq, Repr

/-- The if/else-if chain classifying one pixel's dominant colour. -/
def classifyColor (r g b : ℕ) : ColorTag :=
  if g < r ∧ b < r ∧ 128 < r then .red
  else if r < g ∧ b < g ∧ 128 < g then .green
  else if r < b ∧ g < b ∧ 128 < b then .blue
  else if 128 < r ∧ 128 < g ∧ b < 128 then .yellow
  else if 128 < g ∧ 128 < b ∧ r < 128 then .cyan
  else if 128 < r ∧ 128 < b ∧ g < 128 then .magenta
  else .neutral

/-- The percentages record of `calculateColorDistribution`. -/
structure ColorDistribution where
  red : Option ℝ
  green : Option ℝ
  blue : Option ℝ
  yellow : Option ℝ
  cyan : Option ℝ
  magenta : Option ℝ
  neutral : Option ℝ

/-- `ImageAnalyzer.calculateColorDistribution`: bucket counts normalized to
percentages of `data.length / 4` (exact JS float division). -/
noncomputable def calculateColorDistribution (data : List ℕ) : ColorDistribution :=
  let tags := (pixelIdx data).map
    (fun k => classifyColor (sampleR data k) (sampleG data k) (sampleB data k))
  let total : ℝ := (data.length : ℝ) / 4
  let pct := fun t => jsDiv (some ((tags.count t : ℝ) * 100)) total
  { red := pct .red, green := pct .green, blue := pct .blue,
    yellow := pct .yellow, cyan := pct .cyan, magenta := pct .magenta,
    neutral := pct .neutral }

/-- The record built by `analyzePixels`. -/
structure PixelAnalysis where
  hasAlpha : Bool
  isGrayscale : Bool
  hasColor : Bool
  uniqueColorCount : ℕ
  colorVariance : Option ℝ
  entropy : ℝ
  transparencyRatio : Option ℝ
  colorRatio : Option ℝ
  histR : ℕ → ℕ
  histG : ℕ → ℕ
  histB : ℕ → ℕ
  histA : ℕ → ℕ
  colorDistribution : ColorDistribution

/-- `ImageAnalyzer.analyzePixels`: single scan accumulating alpha presence,
grayscale/colour flags, the `Math.round(c/8)`-bucketed distinct-colour count,
per-channel histograms, luminance statistics and entropy, and the colour
distribution.  (The JS also keeps the raw `uniqueColors` set object; only its
size is consumed.) -/
noncomputable def analyzePixels (img : JPEGCompression.JSImageData) : PixelAnalysis :=
  let data := img.data
  let ks := pixelIdx data
  let wh : ℝ := (img.width : ℝ) * (img.height : ℝ)
  let lums := ks.map (fun k => luminanceOf (sampleR data k) (sampleG data k) (sampleB data k))
  let alphaPixels := ks.countP (fun k => sampleA data k < 255)
  let meanLuminance := jsDiv (some lums.sum) wh
  { hasAlpha := ks.any (fun k => sampleA data k < 255),
    isGrayscale := ¬ ks.any (fun k => sampleR data k ≠ sampleG data k ∨
      sampleG data k ≠ sampleB data k),
    hasColor := ks.any (fun k => sampleR data k ≠ sampleG data k ∨
      sampleG data k ≠ sampleB data k),
    uniqueColorCount := (ks.map (fun k =>
      (JPEGCompression.jsRound ((sampleR data k : ℚ) / 8),
       JPEGCompression.jsRound ((sampleG data k : ℚ) / 8),
       JPEGCompression.jsRound ((sampleB data k : ℚ) / 8)))).dedup.length,
    colorVariance :=
      jsDiv (match meanLuminance with
        | none => none
        | some m => some ((lums.map (fun l => (l - m) ^ 2)).sum)) wh,
    entropy := calculateEntropy lums,
    transparencyRatio := jsDiv (some (alphaPixels : ℝ)) wh,
    colorRatio := jsDiv (some (((ks.map (fun k =>
      (JPEGCompression.jsRound ((sampleR data k : ℚ) / 8),
       JPEGCompression.jsRound ((sampleG data k : ℚ) / 8),
       JPEGCompression.jsRound ((sampleB data k : ℚ) / 8)))).dedup.length : ℝ))) wh,
    histR := fun v => (ks.map (fun k => sampleR data k)).count v,
    histG := fun v => (ks.map (fun k => sampleG data k)).count v,
    histB := fun v => (ks.map (fun k => sampleB data k)).count v,
    histA := fun v => (ks.map (fun k => sampleA data k)).count v,
    colorDistribution := calculateColorDistribution data }

end ImageAnalyzer

namespace ImageAnalyzer

/-- The 3×3 neighbourhood offsets `(dx, dy)` in loop order (`dy` outer). -/
def neighborhood : List (ℤ × ℤ) :=
  [(-1, -1), (0, -1), (1, -1), (-1, 0), (0, 0), (1, 0), (-1, 1), (0, 1), (1, 1)]

/-- `ImageAnalyzer.detectEdges`: Sobel magnitude at `(x, y)`, coordinates
clamped to the image.  Each tap is `(dx, dy, gx, gy)` with the kernel entries
at `kernelIndex = (dy+1)*3 + (dx+1)`.  (The returned object also carries
`direction = atan2(sumY, sumX)`, which no caller reads; the magnitude is what
this models.) -/
noncomputable def detectEdges (data : List ℕ) (width height : ℕ) (x y : ℕ) : ℝ :=
  let taps : List (ℤ × ℤ × ℤ × ℤ) :=
    [(-1, -1, -1, -1), (0, -1, 0, -2), (1, -1, 1, -1),
     (-1, 0, -2, 0), (0, 0, 0, 0), (1, 0, 2, 0),
     (-1, 1, -1, 1), (0, 1, 0, 2), (1, 1, 1, 1)]
  let lumTap := fun (dx dy : ℤ) =>
    lumaAt data width (clampCoord width ((x : ℤ) + dx)) (clampCoord height ((y : ℤ) + dy))
  let sumX := (taps.map (fun t => lumTap t.1 t.2.1 * (t.2.2.1 : ℝ))).sum
  let sumY := (taps.map (fun t => lumTap t.1 t.2.1 * (t.2.2.2 : ℝ))).sum
  Real.sqrt (sumX ^ 2 + sumY ^ 2)

/-- `ImageAnalyzer.calculateLocalVariance`: variance of the 9 clamped
neighbourhood luminances. -/
noncomputable def calculateLocalVariance (data : List ℕ) (width height : ℕ)
    (x y : ℕ) : ℝ :=
  let vals := neighborhood.map (fun o =>
    lumaAt data width (clampCoord width ((x : ℤ) + o.1))
      (clampCoord height ((y : ℤ) + o.2)))
  let mean := vals.sum / (vals.length : ℝ)
  (vals.map (fun v => (v - mean) ^ 2)).sum / (vals.length : ℝ)

/-- `ImageAnalyzer.detectNoise`: mean absolute luminance difference between
the centre pixel and its 8 clamped neighbours (the centre offset is skipped
by `continue`). -/
noncomputable def detectNoise (data : List ℕ) (width height : ℕ) (x y : ℕ) : ℝ :=
  let centerLum := lumaAt data width x y
  let offs := neighborhood.filter (fun o => ¬ (o.1 = 0 ∧ o.2 = 0))
  let diffs := offs.map (fun o =>
    |lumaAt data width (clampCoord width ((x : ℤ) + o.1))
      (clampCoord height ((y : ℤ) + o.2)) - centerLum|)
  diffs.sum / (diffs.length : ℝ)

/-- The index list of a `for (v = start; v < bound; v += step)` loop. -/
def strideIdx (start step bound : ℕ) : List ℕ :=
  (List.range ((bound - start + step - 1) / step)).map (fun k => start + step * k)

/-- The record returned by `analyzeBlock`: its fields are named
`edgePixels`, `totalVariance`, `noiseSum`, `edgeCount`. -/
structure BlockAnalysis where
  edgePixels : ℕ
  totalVariance : ℝ
  noiseSum : ℝ
  edgeCount : ℕ

/-- `ImageAnalyzer.analyzeBlock`: scan the up-to-`blockSize`-square block at
`(startX, startY)` (both loop bounds also limited by `height-1`/`width-1`),
counting Sobel edges above magnitude 50 and accumulating local variance and
noise.  (The block's `centerLum` local is computed and never used.) -/
noncomputable def analyzeBlock (data : List ℕ) (width height startX startY : ℕ)
    (blockSize : ℕ) : BlockAnalysis :=
  let dys := (List.range blockSize).filter (fun dy => startY + dy < height - 1)
  let dxs := (List.range blockSize).filter (fun dx => startX + dx < width - 1)
  let pts := dys.flatMap (fun dy => dxs.map (fun dx => (startX + dx, startY + dy)))
  { edgePixels := pts.countP (fun p => decide (50 < detectEdges data width height p.1 p.2)),
    totalVariance := (pts.map (fun p => calculateLocalVariance data width height p.1 p.2)).sum,
    noiseSum := (pts.map (fun p => detectNoise data width height p.1 p.2)).sum,
    edgeCount := pts.countP (fun p => decide (50 < detectEdges data width height p.1 p.2)) }

/-- `ImageAnalyzer.calculateBlurScore`: Laplacian variance over the interior
pixels, clamped into `[0, 100]` after division by 1000; `none` models the JS
`NaN` produced when the interior is empty (`count = 0`, division `0/0`),
which then propagates through `Math.max`/`Math.min`. -/
noncomputable def calculateBlurScore (img : JPEGCompression.JSImageData) : Option ℝ :=
  let data := img.data
  let w := img.width
  let pts := (strideIdx 1 1 (img.height - 1)).flatMap
    (fun y => (strideIdx 1 1 (img.width - 1)).map (fun x => (x, y)))
  let lap := fun (p : ℕ × ℕ) =>
    (-1 : ℝ) * lumaAt data w (p.1 - 1) p.2 +
    (-1 : ℝ) * lumaAt data w p.1 (p.2 - 1) +
    (4 : ℝ) * lumaAt data w p.1 p.2 +
    (-1 : ℝ) * lumaAt data w p.1 (p.2 + 1) +
    (-1 : ℝ) * lumaAt data w (p.1 + 1) p.2
  if pts.length = 0 then none
  else
    let mean := (pts.map lap).sum / (pts.length : ℝ)
    let variance := (pts.map (fun p => lap p * lap p)).sum / (pts.length : ℝ) - mean * mean
    some (min 100 (max 0 (variance / 1000)))

/-- The record built by `analyzeContent`. -/
structure ContentAnalysis where
  isPhotograph : Bool
  isGraphic : Bool
  hasSharpEdges : Bool
  edgeDensity : Option ℝ
  complexity : Option ℝ
  noiseLevel : Option ℝ
  blurScore : Option ℝ

/-- `ImageAnalyzer.analyzeContent`: 8-stride block scan.  The source
accumulates `blockAnalysis.variance` and `blockAnalysis.noise`, but the
record `analyzeBlock` returns has no such fields (they are named
`totalVariance` and `noiseSum`), so in JS each addition reads `undefined`
and the accumulator is `NaN` as soon as one block is processed — the fold
over the blocks models exactly that.  A `NaN` complexity compares false
against 1000, so the classification is always `graphic` (never
`photograph`). -/
noncomputable def analyzeContent (img : JPEGCompression.JSImageData) : ContentAnalysis :=
  let blocks := (strideIdx 1 8 (img.height - 1)).flatMap
    (fun y => (strideIdx 1 8 (img.width - 1)).map (fun x => (x, y)))
  let edgePixels := (blocks.map
    (fun b => (analyzeBlock img.data img.width img.height b.1 b.2 8).edgePixels)).sum
  let totalVariance : Option ℝ := blocks.foldl (fun _ _ => none) (some 0)
  let noiseSum : Option ℝ := blocks.foldl (fun _ _ => none) (some 0)
  let wh : ℝ := (img.width : ℝ) * (img.height : ℝ)
  let complexity := jsDiv totalVariance wh
  let edgeDensity := jsDiv (some (edgePixels : ℝ)) wh
  { isPhotograph := jsGt complexity 1000,
    isGraphic := ¬ jsGt complexity 1000,
    hasSharpEdges := jsGt edgeDensity 0.1,
    edgeDensity := edgeDensity,
    complexity := complexity,
    noiseLevel := jsDiv noiseSum wh,
    blurScore := calculateBlurScore img }

/-- `ImageAnalyzer.detectOverallNoise`: noise sampled on a 10-stride grid;
`none` models the `NaN` of `0/0` when no point is sampled. -/
noncomputable def detectOverallNoise (img : JPEGCompression.JSImageData) : Option ℝ :=
  let pts := (strideIdx 1 10 (img.height - 1)).flatMap
    (fun y => (strideIdx 1 10 (img.width - 1)).map (fun x => (x, y)))
  if pts.length = 0 then none
  else some ((pts.map (fun p => detectNoise img.data img.width img.height p.1 p.2)).sum /
    (pts.length : ℝ))

/-- `ImageAnalyzer.calculateCompressionPotential`.  The graphics bonus of the
source reads `analysis.isGraphic` off the result of an un-awaited `async`
call (`this.analyzeContent(imageData)` without `await`), i.e. off a Promise
object: the read is `undefined`, which is falsy, so the `+10` never
applies. -/
noncomputable def calculateCompressionPotential (img : JPEGCompression.JSImageData)
    (qualityScore : Option ℝ) : ℝ :=
  let adj1 : ℝ := if jsGt qualityScore 80 then -10 else if jsLt qualityScore 30 then 15 else 0
  let megaPixels : ℝ := ((img.width : ℝ) * (img.height : ℝ)) / 1000000
  let adj2 : ℝ := if (10 : ℝ) < megaPixels then 5 else 0
  min 95 (max 40 (70 + adj1 + adj2))

/-- The record returned by `analyzeQuality`: note that its `blurScore` and
`noiseLevel` fields are the literal `0`s of the record initializer — the
function never updates them. -/
structure QualityAnalysis where
  blurScore : ℝ
  noiseLevel : ℝ
  compressionPotential : ℝ
  qualityScore : Option ℝ

/-- `ImageAnalyzer.analyzeQuality`: quality score from sharpness (blur score)
and cleanliness (overall noise); `NaN` propagates through `100 - x` and
`Math.max`. -/
noncomputable def analyzeQuality (img : JPEGCompression.JSImageData) : QualityAnalysis :=
  let sharpness : Option ℝ :=
    match calculateBlurScore img with
    | none => none
    | some b => some (max 0 (100 - b))
  let cleanliness : Option ℝ :=
    match detectOverallNoise img with
    | none => none
    | some n => some (max 0 (100 - n))
  let qualityScore : Option ℝ :=
    match sharpness, cleanliness with
    | some s, some c => some ((s + c) / 2)
    | _, _ => none
  { blurScore := 0, noiseLevel := 0,
    compressionPotential := calculateCompressionPotential img qualityScore,
    qualityScore := qualityScore }

/-- The `recommendedSettings` object. -/
structure RecommendedSettings where
  progressive : Bool
  optimize : Bool
  chromaSubsampling : Bool
  filterStrength : ℕ

/-- The record returned by `generateRecommendations`. -/
structure Recommendations where
  recommendedFormat : String
  recommendedQuality : ℚ
  recommendedSettings : RecommendedSettings

/-- `ImageAnalyzer.generateRecommendations`, as a function of exactly the
fields of the merged analysis record that it reads. -/
noncomputable def generateRecommendations (hasAlpha isPhotograph isGraphic hasSharpEdges : Bool)
    (qualityScore : Option ℝ) (compressionPotential : ℝ) (width : ℕ) :
    Recommendations :=
  { recommendedFormat :=
      if hasAlpha then "webp"
      else if isPhotograph ∧ jsGt qualityScore 70 then "avif"
      else if isGraphic then "png"
      else "jpeg",
    recommendedQuality :=
      if jsGt qualityScore 80 then 0.9
      else if jsGt qualityScore 60 then 0.8
      else if jsGt qualityScore 40 then 0.7
      else 0.6,
    recommendedSettings :=
      { progressive := isPhotograph ∧ 1000 < width,
        optimize := (70 : ℝ) < compressionPotential,
        chromaSubsampling := isPhotograph,
        filterStrength := if hasSharpEdges then 60 else 40 } }

/-- The merged analysis record `analyze` returns (the fields of the base
record and of the four sub-analyses after the `Object.assign` chain; the raw
`uniqueColors` set object and the unused `totalEdges` local are not
retained). -/
structure Analysis where
  width : ℕ
  height : ℕ
  pixelCount : ℕ
  hasAlpha : Bool
  isGrayscale : Bool
  hasColor : Bool
  uniqueColorCount : ℕ
  colorVariance : Option ℝ
  entropy : ℝ
  transparencyRatio : Option ℝ
  colorRatio : Option ℝ
  histR : ℕ → ℕ
  histG : ℕ → ℕ
  histB : ℕ → ℕ
  histA : ℕ → ℕ
  colorDistribution : ColorDistribution
  isPhotograph : Bool
  isGraphic : Bool
  hasSharpEdges : Bool
  edgeDensity : Option ℝ
  complexity : Option ℝ
  noiseLevel : ℝ
  blurScore : ℝ
  qualityScore : Option ℝ
  compressionPotential : ℝ
  recommendedFormat : String
  recommendedQuality : ℚ
  recommendedSettings : RecommendedSettings

/-- `ImageAnalyzer.analyze`: build the base record, merge the four
sub-analyses in order (`Object.assign` lets later records overwrite earlier
fields: in particular `analyzeQuality`'s literal-`0` `blurScore` and
`noiseLevel` overwrite `analyzeContent`'s computed values).  The body
performs no validation of the buffer length against `width*height*4` — no
check of the kind exists anywhere in the file — and contains no algorithmic
throw site, so the `catch`-and-rethrow branch is never taken within the
embedded fragment: every buffer yields a complete analysis via `ok`. -/
noncomputable def analyze (img : JPEGCompression.JSImageData) :
    Except String Analysis :=
  let pa := analyzePixels img
  let ca := analyzeContent img
  let qa := analyzeQuality img
  let recs := generateRecommendations pa.hasAlpha ca.isPhotograph ca.isGraphic
    ca.hasSharpEdges qa.qualityScore qa.compressionPotential img.width
  .ok
    { width := img.width, height := img.height,
      pixelCount := img.width * img.height,
      hasAlpha := pa.hasAlpha, isGrayscale := pa.isGrayscale,
      hasColor := pa.hasColor, uniqueColorCount := pa.uniqueColorCount,
      colorVariance := pa.colorVariance, entropy := pa.entropy,
      transparencyRatio := pa.transparencyRatio, colorRatio := pa.colorRatio,
      histR := pa.histR, histG := pa.histG, histB := pa.histB, histA := pa.histA,
      colorDistribution := pa.colorDistribution,
      isPhotograph := ca.isPhotograph, isGraphic := ca.isGraphic,
      hasSharpEdges := ca.hasSharpEdges, edgeDensity := ca.edgeDensity,
      complexity := ca.complexity,
      noiseLevel := qa.noiseLevel, blurScore := qa.blurScore,
      qualityScore := qa.qualityScore,
      compressionPotential := qa.compressionPotential,
      recommendedFormat := recs.recommendedFormat,
      recommendedQuality := recs.recommendedQuality,
      recommendedSettings := recs.recommendedSettings }

end ImageAnalyzer

/-- C3 counterexample: the spec claims `analyze` rejects (signals
`InvalidBuffer` for) every buffer whose data length differs from
`width*height*4`.  On the code, a concrete 4×4 buffer of 128 bytes
(`width*height*4 = 64 ≠ 128`) is analyzed successfully — no rejection
occurs. -/
theorem analyze_accepts_mismatched_buffer :
    (List.replicate 128 0).length ≠ 4 * 4 * 4 ∧
    ∃ a, ImageAnalyzer.analyze ⟨4, 4, List.replicate 128 0⟩ = Except.ok a := by
  exact ⟨by simp, ⟨_, rfl⟩⟩

/-- C3 amended: `analyze` is a deterministic, pure and *total* function of
the buffer: it succeeds on every buffer — those whose data length matches
`width*height*4` and those whose length differs alike — and never signals any
failure; no `InvalidBuffer` (or any other) rejection exists in the code. -/
theorem analyze_total_no_validation :
    (∀ img : JPEGCompression.JSImageData, ∃ a, ImageAnalyzer.analyze img = Except.ok a) ∧
    (∀ (img : JPEGCompression.JSImageData) (e : String),
      ImageAnalyzer.analyze img ≠ Except.error e) := by
  refine ⟨fun img => ⟨_, rfl⟩, fun img e h => ?_⟩
  exact absurd h (by simp [ImageAnalyzer.analyze])

/-- C3 witness: the totality theorem applied to a concrete length-matching
2×2 buffer, and to the concrete mismatched 4×4 buffer. -/
theorem analyze_total_no_validation_witness :
    (∃ a, ImageAnalyzer.analyze ⟨2, 2, List.replicate 16 7⟩ = Except.ok a) ∧
    (∃ a, ImageAnalyzer.analyze ⟨4, 4, List.replicate 128 0⟩ = Except.ok a) :=
  ⟨analyze_total_no_validation.1 ⟨2, 2, List.replicate 16 7⟩,
   analyze_total_no_validation.1 ⟨4, 4, List.replicate 128 0⟩⟩
